import Mathlib

/-!
Shallow embedding of the `hedgehog-splitmix-wasm` crate
(`src/lib.rs` and `src/error.rs`).

Modelling conventions:
* `u64` values are `Nat` with an explicit `% 2 ^ 64` wherever the Rust code
  wraps (`wrapping_add`, `wrapping_mul`) or casts (`as u64`, `as u32`).
* `usize` is modelled as 64 bits wide, so `as usize` on a `u64` is the
  identity (the checked value is already below `2 ^ 64`).
* Plain Rust arithmetic that can overflow is modelled with release-profile
  (wrapping) semantics; an out-of-bounds slice access is modelled as the
  distinguished result `FillResult.panics`.
* A mutable byte slice is a `Buffer`: a length plus a byte-valued function;
  writes are function updates guarded by the same bounds checks Rust makes.
-/

/-- SplitMix64 constant `GOLDEN_GAMMA` from `lib.rs`. -/
def GOLDEN_GAMMA : Nat := 0x9e3779b97f4a7c15

/-- SplitMix64 constant `MIX_MULTIPLIER_1` from `lib.rs`. -/
def MIX_MULTIPLIER_1 : Nat := 0xbf58476d1ce4e5b9

/-- SplitMix64 constant `MIX_MULTIPLIER_2` from `lib.rs`. -/
def MIX_MULTIPLIER_2 : Nat := 0x94d049bb133111eb

/-- Core SplitMix64 mixing function, `splitmix64_mix` in `lib.rs`:
wrapping add of `GOLDEN_GAMMA`, two xor-shift-multiply rounds, final
xor-shift by 31. -/
def splitmix64_mix (z : Nat) : Nat :=
  let z1 := (z + GOLDEN_GAMMA) % 2 ^ 64
  let z2 := ((z1 ^^^ (z1 >>> 30)) * MIX_MULTIPLIER_1) % 2 ^ 64
  let z3 := ((z2 ^^^ (z2 >>> 27)) * MIX_MULTIPLIER_2) % 2 ^ 64
  z3 ^^^ (z3 >>> 31)

/-- Gamma derivation, `mix_gamma` in `lib.rs`: mix, force the low bit on,
then wrapping multiply by `GOLDEN_GAMMA`. -/
def mix_gamma (z : Nat) : Nat :=
  ((splitmix64_mix z ||| 1) * GOLDEN_GAMMA) % 2 ^ 64

/-- The `Seed` struct from `lib.rs`: a 64-bit `state` and `gamma`. -/
structure Seed where
  state : Nat
  gamma : Nat
deriving DecidableEq, Repr

/-- `Seed::new` from `lib.rs` (the spec's `derive`). -/
def Seed.new (value : Nat) : Seed :=
  let state := splitmix64_mix value
  let gamma := mix_gamma state
  ⟨state, gamma⟩

/-- `Seed::from_parts` from `lib.rs`: raw construction, no validation. -/
def Seed.from_parts (state gamma : Nat) : Seed := ⟨state, gamma⟩

/-- Return type of `next_u64` / `next_bounded`: `SeedAndValue` in `lib.rs`. -/
structure SeedAndValue where
  seed : Seed
  value : Nat
deriving DecidableEq, Repr

/-- Return type of `next_bool`: `SeedAndBool` in `lib.rs`. -/
structure SeedAndBool where
  seed : Seed
  value : Bool
deriving DecidableEq, Repr

/-- Return type of `split`: `SeedPair` in `lib.rs`. -/
structure SeedPair where
  left : Seed
  right : Seed
deriving DecidableEq, Repr

/-- Return type of `next_bools_batch`: `BatchBoolResult` in `lib.rs`. -/
structure BatchBoolResult where
  values : List Nat
  final_seed : Seed
deriving DecidableEq, Repr

/-- `Seed::next_u64` from `lib.rs` (the spec's `advance`): wrapping add of
gamma into state, mix for the output, gamma unchanged. -/
def Seed.next_u64 (self : Seed) : SeedAndValue :=
  let new_state := (self.state + self.gamma) % 2 ^ 64
  let output := splitmix64_mix new_state
  ⟨⟨new_state, self.gamma⟩, output⟩

/-- `Seed::next_bounded` from `lib.rs`: 128-bit multiply-high scaling of the
`next_u64` output, cast back to `u64`. -/
def Seed.next_bounded (self : Seed) (bound : Nat) : SeedAndValue :=
  let result := self.next_u64
  ⟨result.seed, ((result.value * bound) >>> 64) % 2 ^ 64⟩

/-- `Seed::next_bool` from `lib.rs`: low bit of the `next_u64` output. -/
def Seed.next_bool (self : Seed) : SeedAndBool :=
  let result := self.next_u64
  ⟨result.seed, result.value &&& 1 == 1⟩

/-- `Seed::split` from `lib.rs`: left child keeps the parent's gamma at the
advanced state, right child starts at the mixed output with a fresh gamma. -/
def Seed.split (self : Seed) : SeedPair :=
  let new_state := (self.state + self.gamma) % 2 ^ 64
  let output := splitmix64_mix new_state
  let new_gamma := mix_gamma output
  ⟨⟨new_state, self.gamma⟩, ⟨output, new_gamma⟩⟩

/-- Loop body of `Seed::next_bools_batch` from `lib.rs`: threads the raw
state, records the low bit of each mixed output as a 0/1 byte. -/
def next_bools_batch_loop (gamma : Nat) (state : Nat) : Nat → List Nat × Nat
  | 0 => ([], state)
  | n + 1 =>
    let st := (state + gamma) % 2 ^ 64
    let out := splitmix64_mix st
    let rest := next_bools_batch_loop gamma st n
    ((if out &&& 1 == 1 then 1 else 0) :: rest.1, rest.2)

/-- `Seed::next_bools_batch` from `lib.rs`. -/
def Seed.next_bools_batch (self : Seed) (count : Nat) : BatchBoolResult :=
  let r := next_bools_batch_loop self.gamma self.state count
  ⟨r.1, ⟨r.2, self.gamma⟩⟩

/-- Error values from `error.rs`: each helper constructor (`buffer_too_large`,
`buffer_too_small`, `invalid_format`, `invalid_parameter`) determines the
`ErrorKind` plus the data embedded in the formatted message, which is what
the constructors carry here. -/
inductive Error where
  | buffer_too_large (size_mb limit_mb : Nat)
  | buffer_too_small (required provided : Nat)
  | invalid_format (format : Nat)
  | invalid_parameter
deriving DecidableEq, Repr

/-- The `DataFormat` enum from `lib.rs`. -/
inductive DataFormat where
  | U32LE
  | F64LE
  | BoolU8
deriving DecidableEq, Repr

/-- `DataFormat::from_u8` from `lib.rs`: tags 0, 1, 2 decode; anything else
is an `invalid_format` error carrying the tag. -/
def DataFormat.from_u8 (value : Nat) : Except Error DataFormat :=
  if value = 0 then .ok .U32LE
  else if value = 1 then .ok .F64LE
  else if value = 2 then .ok .BoolU8
  else .error (Error.invalid_format value)

/-- `DataFormat::bytes_per_element` from `lib.rs`. -/
def DataFormat.bytes_per_element : DataFormat → Nat
  | .U32LE => 4
  | .F64LE => 8
  | .BoolU8 => 1

/-- A caller-supplied mutable byte slice: its length and its byte contents
(indices at or above `len` are irrelevant and never written). -/
structure Buffer where
  len : Nat
  data : Nat → Nat

/-- Single in-bounds byte store `buffer[i] = v` (the bounds check is made at
each call site, mirroring Rust's panicking index). -/
def Buffer.setByte (b : Buffer) (i v : Nat) : Buffer :=
  ⟨b.len, fun j => if j = i then v else b.data j⟩

/-- Sequential byte stores, modelling `copy_from_slice` into
`buffer[off .. off + vs.length]`. -/
def Buffer.writeBytes (b : Buffer) (off : Nat) : List Nat → Buffer
  | [] => b
  | v :: vs => (b.setByte off v).writeBytes (off + 1) vs

/-- Little-endian bytes of a `u32`, as produced by `to_le_bytes`. -/
def u32LeBytes (v : Nat) : List Nat :=
  [v % 256, (v >>> 8) % 256, (v >>> 16) % 256, (v >>> 24) % 256]

/-- Little-endian bytes of a `u64`, as produced by `to_le_bytes`. -/
def u64LeBytes (v : Nat) : List Nat :=
  [v % 256, (v >>> 8) % 256, (v >>> 16) % 256, (v >>> 24) % 256,
   (v >>> 32) % 256, (v >>> 40) % 256, (v >>> 48) % 256, (v >>> 56) % 256]

/-- IEEE-754 binary64 bit pattern of the exact value `m / 2 ^ 53` for
`m < 2 ^ 53`, which is what `(output >> 11) as f64 * (1.0 / (1u64 << 53) as f64)`
produces: sign 0, biased exponent `log2 m + 970`, mantissa field holding the
bits of `m` below its leading one. -/
def f64Bits (m : Nat) : Nat :=
  if m = 0 then 0
  else ((Nat.log2 m + 970) <<< 52) + ((m - 2 ^ Nat.log2 m) <<< (52 - Nat.log2 m))

/-- Little-endian bytes of the double written for one `F64LE` element. -/
def f64LeBytes (m : Nat) : List Nat := u64LeBytes (f64Bits m)

/-- Result of `fill_buffer`: success with the written buffer and final seed,
an error value, or a Rust panic (out-of-bounds slice access or aborted
write loop). -/
inductive FillResult where
  | ok (buffer : Buffer) (seed : Seed)
  | fails (e : Error)
  | panics

/-- The `DataFormat::U32LE` arm of the `fill_buffer` data loop: one wrapping
advance and mix per element, multiply-high bounding unless the bound is
`u32::MAX`, 4-byte little-endian store at `9 + i * 4`. -/
def fillU32Loop (gamma bound_u64 : Nat) (buf : Buffer) (state i : Nat) :
    Nat → Option (Buffer × Nat)
  | 0 => some (buf, state)
  | n + 1 =>
    if 9 + i * 4 + 4 ≤ buf.len then
      fillU32Loop gamma bound_u64
        (buf.writeBytes (9 + i * 4) (u32LeBytes
          ((if bound_u64 == 4294967295 then
              splitmix64_mix ((state + gamma) % 2 ^ 64)
            else
              (splitmix64_mix ((state + gamma) % 2 ^ 64) * bound_u64) >>> 64)
            % 2 ^ 32)))
        ((state + gamma) % 2 ^ 64) (i + 1) n
    else
      none

/-- The `DataFormat::F64LE` arm of the `fill_buffer` data loop: one wrapping
advance and mix per element, top 53 bits scaled into `[0, 1)`, 8-byte
little-endian store at `9 + i * 8`. -/
def fillF64Loop (gamma : Nat) (buf : Buffer) (state i : Nat) :
    Nat → Option (Buffer × Nat)
  | 0 => some (buf, state)
  | n + 1 =>
    if 9 + i * 8 + 8 ≤ buf.len then
      fillF64Loop gamma
        (buf.writeBytes (9 + i * 8)
          (f64LeBytes (splitmix64_mix ((state + gamma) % 2 ^ 64) >>> 11)))
        ((state + gamma) % 2 ^ 64) (i + 1) n
    else
      none

/-- The `DataFormat::BoolU8` arm of the `fill_buffer` data loop: one wrapping
advance and mix per element, low bit stored as a 0/1 byte at `9 + i`. -/
def fillBoolLoop (gamma : Nat) (buf : Buffer) (state i : Nat) :
    Nat → Option (Buffer × Nat)
  | 0 => some (buf, state)
  | n + 1 =>
    if 9 + i < buf.len then
      fillBoolLoop gamma
        (buf.setByte (9 + i)
          (if splitmix64_mix ((state + gamma) % 2 ^ 64) &&& 1 == 1 then 1 else 0))
        ((state + gamma) % 2 ^ 64) (i + 1) n
    else
      none

/-- Dispatch on the decoded format, as the `match format` in `fill_buffer`
does; the data region always starts at byte 9. -/
def fill_data (format : DataFormat) (gamma : Nat) (bound : Option Nat)
    (buf : Buffer) (state count : Nat) : Option (Buffer × Nat) :=
  match format with
  | .U32LE => fillU32Loop gamma (bound.getD 4294967295) buf state 0 count
  | .F64LE => fillF64Loop gamma buf state 0 count
  | .BoolU8 => fillBoolLoop gamma buf state 0 count

/-- `PRACTICAL_MAX_BUFFER` from `fill_buffer`: 1 GiB. -/
def PRACTICAL_MAX_BUFFER : Nat := 1024 * 1024 * 1024

/-- The `required_size` computation in `fill_buffer`:
`9 + count * bytes_per_element`, with the plain `u64` multiplication and
addition wrapping modulo `2 ^ 64` (release-profile overflow semantics). -/
def required_size (format : DataFormat) (count : Nat) : Nat :=
  (9 + (count * format.bytes_per_element) % 2 ^ 64) % 2 ^ 64

/-- Remainder of `Seed::fill_buffer` once the format tag has decoded:
required-size check, header write (format tag at byte 0, count little-endian
at bytes 1..9), then the per-format data loop; returns the final seed. The
header stores carry the slice bounds checks Rust makes. -/
def fill_buffer_validated (self : Seed) (buffer : Buffer) (format_u8 count : Nat)
    (bound : Option Nat) (format : DataFormat) : FillResult :=
  if buffer.len < required_size format count then
    .fails (Error.buffer_too_small (required_size format count) buffer.len)
  else if buffer.len < 1 then
    .panics
  else if buffer.len < 9 then
    .panics
  else
    match fill_data format self.gamma bound
        ((buffer.setByte 0 format_u8).writeBytes 1 (u64LeBytes count))
        self.state count with
    | none => .panics
    | some (b, st) => .ok b ⟨st, self.gamma⟩

/-- `Seed::fill_buffer` from `lib.rs`: size-ceiling check, format decode,
then the validated remainder above. -/
def Seed.fill_buffer (self : Seed) (buffer : Buffer) (format_u8 count : Nat)
    (bound : Option Nat) : FillResult :=
  if buffer.len > PRACTICAL_MAX_BUFFER then
    .fails (Error.buffer_too_large (buffer.len >>> 20) (PRACTICAL_MAX_BUFFER >>> 20))
  else
    match DataFormat.from_u8 format_u8 with
    | .error e => .fails e
    | .ok format => fill_buffer_validated self buffer format_u8 count bound format

/-- Whether a `fill_buffer` call succeeded. -/
def FillResult.isOk : FillResult → Bool
  | .ok _ _ => true
  | _ => false

/-- The final seed of a successful `fill_buffer` call. -/
def FillResult.seedOf : FillResult → Option Seed
  | .ok _ s => some s
  | _ => none

/-- Byte `j` of the buffer of a successful `fill_buffer` call. -/
def FillResult.dataAt (r : FillResult) (j : Nat) : Option Nat :=
  match r with
  | .ok b _ => some (b.data j)
  | _ => none

/-- Modelled from the spec's description of `mix64` (section 4.1), word for
word: add `GOLDEN_GAMMA` modulo `2 ^ 64`; xor with self shifted right 30 and
multiply by `0xbf58476d1ce4e5b9` modulo `2 ^ 64`; xor with self shifted right
27 and multiply by `0x94d049bb133111eb` modulo `2 ^ 64`; xor with self
shifted right 31, with no final multiplication. Compared against the source
function `splitmix64_mix`. -/
def mix64_spec (z : Nat) : Nat :=
  let a := (z + 0x9e3779b97f4a7c15) % 2 ^ 64
  let b := ((a ^^^ (a >>> 30)) * 0xbf58476d1ce4e5b9) % 2 ^ 64
  let c := ((b ^^^ (b >>> 27)) * 0x94d049bb133111eb) % 2 ^ 64
  c ^^^ (c >>> 31)

/-- Reference for the batch-equivalence claim: call `next_bool` `n` times
sequentially, collecting every boolean and keeping the last seed. -/
def next_bool_seq (s : Seed) : Nat → List Bool × Seed
  | 0 => ([], s)
  | n + 1 =>
    let r := s.next_bool
    let rest := next_bool_seq r.seed n
    (r.value :: rest.1, rest.2)

/-- The state reached after `n` wrapping additions of `gamma`, exactly as
every data loop in `lib.rs` threads its `current_state`. -/
def iterState (gamma state : Nat) : Nat → Nat
  | 0 => state
  | n + 1 => iterState gamma ((state + gamma) % 2 ^ 64) n

/-- The seed obtained by performing `n` successive `next_u64` advances and
keeping only the last seed. -/
def advanceN : Seed → Nat → Seed
  | s, 0 => s
  | s, n + 1 => advanceN s.next_u64.seed n

/-! Helper lemmas. -/

/-- Forcing the low bit on yields an odd number. -/
theorem lor_one_mod_two (m : Nat) : (m ||| 1) % 2 = 1 := by
  have h : (m ||| 1).testBit 0 = true := by
    simp [Nat.testBit_lor]
  rw [Nat.testBit_zero] at h
  exact of_decide_eq_true h

/-- `mix_gamma` always returns an odd value: the low bit is forced on and
both factors of the final wrapping product are odd. -/
theorem mix_gamma_mod_two (z : Nat) : mix_gamma z % 2 = 1 := by
  unfold mix_gamma
  rw [Nat.mod_mod_of_dvd _ (by norm_num : (2 : Nat) ∣ 2 ^ 64), Nat.mul_mod,
    lor_one_mod_two]
  simp [GOLDEN_GAMMA]

/-- The mixing function stays inside the 64-bit range. -/
theorem splitmix64_mix_lt (z : Nat) : splitmix64_mix z < 2 ^ 64 := by
  have h : ∀ c : Nat, c < 2 ^ 64 → c ^^^ (c >>> 31) < 2 ^ 64 := by
    intro c hc
    refine Nat.xor_lt_two_pow hc (lt_of_le_of_lt ?_ hc)
    rw [Nat.shiftRight_eq_div_pow]
    exact Nat.div_le_self _ _
  exact h _ (Nat.mod_lt _ (by norm_num))

/-! Claim theorems. -/

/-- Claim C4: `splitmix64_mix` computes exactly the spec's `mix64` formula:
add the golden-gamma constant mod `2 ^ 64`, two xor-shift-multiply rounds
with shifts 30 and 27 and the two fixed odd multipliers mod `2 ^ 64`, and a
final xor-shift by 31 with no multiplication. -/
theorem mix64_matches_spec : ∀ z : Nat, splitmix64_mix z = mix64_spec z :=
  fun _ => rfl

/-- Claim C6: the left seed returned by `split` equals, in both state and
gamma, the seed returned by `next_u64` on the same seed. -/
theorem split_left_eq_advance (s : Seed) : s.split.left = s.next_u64.seed :=
  rfl

/-- Claim C3 counterexample: `from_parts` performs no validation, so a seed
with even gamma exists, and `split` hands that gamma unchanged to its left
child: the left child of `split (from_parts 0 2)` has the even gamma 2. -/
theorem gamma_parity_counterexample :
    ¬ ((Seed.from_parts 0 2).split.left.gamma % 2 = 1) := by decide

/-- Claim C3 (amended): for every 64-bit `x` the gamma of `Seed::new x` is
odd; and for every seed whose own gamma is odd, both seeds returned by
`split` have odd gamma (the left child inherits the parent's gamma, the
right child's gamma is freshly produced by `mix_gamma`). -/
theorem gamma_parity :
    (∀ x : Nat, (Seed.new x).gamma % 2 = 1) ∧
    (∀ s : Seed, s.gamma % 2 = 1 →
      s.split.left.gamma % 2 = 1 ∧ s.split.right.gamma % 2 = 1) := by
  constructor
  · intro x
    exact mix_gamma_mod_two _
  · intro s hs
    exact ⟨hs, mix_gamma_mod_two _⟩

/-- Witness for claim C3 at `x = 42` and the odd-gamma seed `(0, 1)`. -/
theorem gamma_parity_witness :
    (Seed.new 42).gamma % 2 = 1 ∧
    ((Seed.from_parts 0 1).split.left.gamma % 2 = 1 ∧
      (Seed.from_parts 0 1).split.right.gamma % 2 = 1) :=
  ⟨gamma_parity.1 42, gamma_parity.2 (Seed.from_parts 0 1) rfl⟩

/-- Claim C7: `next_bounded` returns a value strictly below the bound
whenever the bound is positive, and exactly 0 when the bound is 0. -/
theorem next_bounded_in_range (s : Seed) (bound : Nat) :
    (0 < bound → (s.next_bounded bound).value < bound) ∧
    (bound = 0 → (s.next_bounded bound).value = 0) := by
  constructor
  · intro hb
    show ((s.next_u64.value * bound) >>> 64) % 2 ^ 64 < bound
    have hout : s.next_u64.value < 2 ^ 64 := splitmix64_mix_lt _
    calc ((s.next_u64.value * bound) >>> 64) % 2 ^ 64
        ≤ (s.next_u64.value * bound) >>> 64 := Nat.mod_le _ _
      _ = s.next_u64.value * bound / 2 ^ 64 := Nat.shiftRight_eq_div_pow _ _
      _ < bound := Nat.div_lt_of_lt_mul (mul_lt_mul_of_pos_right hout hb)
  · intro hb
    subst hb
    show ((s.next_u64.value * 0) >>> 64) % 2 ^ 64 = 0
    simp

/-- Witness for claim C7 at a concrete seed with bounds 10 and 0. -/
theorem next_bounded_in_range_witness :
    ((Seed.from_parts 1 3).next_bounded 10).value < 10 ∧
    ((Seed.from_parts 1 3).next_bounded 0).value = 0 :=
  ⟨(next_bounded_in_range (Seed.from_parts 1 3) 10).1 (by norm_num),
   (next_bounded_in_range (Seed.from_parts 1 3) 0).2 rfl⟩

/-- Claim C1 evaluated at its failing input: with a 9-byte buffer, format
tag 0 and count `2 ^ 62`, the plain `u64` multiplication
`count * bytes_per_element` wraps to 0, `required_size` computes to 9, every
validation check passes, and the first element store then indexes bytes
9..13 of the 9-byte buffer: `fill_buffer` panics on an out-of-bounds slice
write instead of returning an error value. -/
theorem fill_buffer_count_overflow_panics :
    (Seed.from_parts 0 1).fill_buffer ⟨9, fun _ => 0⟩ 0 (2 ^ 62) none
      = FillResult.panics := rfl

/-- Claim C2 counterexample: the 1 GiB buffer-size ceiling is checked before
the format tag, so a buffer one byte over the ceiling with format tag 7
yields `buffer_too_large`, not `invalid_format 7`. -/
theorem fill_buffer_invalid_format_counterexample :
    (Seed.from_parts 0 1).fill_buffer ⟨2 ^ 30 + 1, fun _ => 0⟩ 7 0 none
      ≠ FillResult.fails (Error.invalid_format 7) := by
  have h : (Seed.from_parts 0 1).fill_buffer ⟨2 ^ 30 + 1, fun _ => 0⟩ 7 0 none
      = FillResult.fails (Error.buffer_too_large 1024 1024) := rfl
  rw [h]
  intro hc
  injection hc with he
  exact absurd he (by decide)

/-- Claim C2 (amended): for every buffer of length at most the 1 GiB
ceiling, every count and every bound, `fill_buffer` with a format tag not in
0, 1, 2 returns `invalid_format` carrying the offending tag. -/
theorem fill_buffer_invalid_format (s : Seed) (buf : Buffer) (f count : Nat)
    (bound : Option Nat) (hlen : buf.len ≤ PRACTICAL_MAX_BUFFER)
    (h0 : f ≠ 0) (h1 : f ≠ 1) (h2 : f ≠ 2) :
    s.fill_buffer buf f count bound = FillResult.fails (Error.invalid_format f) := by
  have hf : DataFormat.from_u8 f = .error (Error.invalid_format f) := by
    unfold DataFormat.from_u8
    rw [if_neg h0, if_neg h1, if_neg h2]
  unfold Seed.fill_buffer
  rw [if_neg (by omega), hf]

/-- Witness for claim C2 with tag 7, an empty buffer and count 5. -/
theorem fill_buffer_invalid_format_witness :
    (Seed.from_parts 0 1).fill_buffer ⟨0, fun _ => 0⟩ 7 5 none
      = FillResult.fails (Error.invalid_format 7) :=
  fill_buffer_invalid_format (Seed.from_parts 0 1) ⟨0, fun _ => 0⟩ 7 5 none
    (Nat.zero_le _) (by decide) (by decide) (by decide)

/-- The batch loop agrees step by step with iterated `next_bool`: same 0/1
bytes and the same final raw state, with gamma carried through. -/
theorem next_bools_batch_loop_spec : ∀ (n : Nat) (s : Seed),
    next_bools_batch_loop s.gamma s.state n
      = ((next_bool_seq s n).1.map fun b => if b then 1 else 0,
         (next_bool_seq s n).2.state) ∧
    (next_bool_seq s n).2.gamma = s.gamma := by
  intro n
  induction n with
  | zero =>
    intro s
    exact ⟨rfl, rfl⟩
  | succ n ih =>
    intro s
    obtain ⟨h1, h2⟩ := ih ⟨(s.state + s.gamma) % 2 ^ 64, s.gamma⟩
    refine ⟨?_, h2⟩
    show ((if splitmix64_mix ((s.state + s.gamma) % 2 ^ 64) &&& 1 == 1
        then 1 else 0) ::
        (next_bools_batch_loop s.gamma ((s.state + s.gamma) % 2 ^ 64) n).1,
        (next_bools_batch_loop s.gamma ((s.state + s.gamma) % 2 ^ 64) n).2) = _
    rw [h1]
    rfl

/-- Claim C5: `next_bools_batch` returns the final seed reached by calling
`next_bool` `n` times sequentially and keeping the last seed, and its byte
sequence equals, element by element, the booleans observed across those `n`
calls encoded as 0/1 bytes. -/
theorem next_bools_batch_equiv (s : Seed) (n : Nat) :
    (s.next_bools_batch n).values
      = ((next_bool_seq s n).1.map fun b => if b then 1 else 0) ∧
    (s.next_bools_batch n).final_seed = (next_bool_seq s n).2 := by
  obtain ⟨h1, h2⟩ := next_bools_batch_loop_spec n s
  constructor
  · show (next_bools_batch_loop s.gamma s.state n).1 = _
    rw [h1]
  · show (⟨(next_bools_batch_loop s.gamma s.state n).2, s.gamma⟩ : Seed) = _
    rw [h1, ← h2]

/-- Claim C8: for every valid format and count, a buffer within the 1 GiB
ceiling whose length is exactly one byte short of the required size
`9 + count * bytes_per_element` yields `buffer_too_small` carrying the
required size and the actual length. -/
theorem fill_buffer_too_small (s : Seed) (buf : Buffer) (f count : Nat)
    (bound : Option Nat) (fmt : DataFormat)
    (hf : DataFormat.from_u8 f = .ok fmt)
    (hlen : buf.len = 8 + count * fmt.bytes_per_element)
    (hmax : buf.len ≤ PRACTICAL_MAX_BUFFER) :
    s.fill_buffer buf f count bound
      = FillResult.fails
          (Error.buffer_too_small (9 + count * fmt.bytes_per_element) buf.len) := by
  generalize hx : count * fmt.bytes_per_element = x at hlen ⊢
  have hxle : 8 + x ≤ 1024 * 1024 * 1024 := by
    rw [hlen] at hmax
    exact hmax
  have hreq : required_size fmt count = 9 + x := by
    unfold required_size
    rw [hx, Nat.mod_eq_of_lt (by omega), Nat.mod_eq_of_lt (by omega)]
  have hstep : s.fill_buffer buf f count bound
      = fill_buffer_validated s buf f count bound fmt := by
    unfold Seed.fill_buffer
    rw [if_neg (by omega), hf]
  rw [hstep]
  unfold fill_buffer_validated
  rw [hreq, if_pos (by omega)]

/-- Witness for claim C8: double format, count 1, a 16-byte buffer (one byte
short of the required 17). -/
theorem fill_buffer_too_small_witness :
    (Seed.from_parts 0 1).fill_buffer ⟨16, fun _ => 0⟩ 1 1 none
      = FillResult.fails (Error.buffer_too_small 17 16) :=
  fill_buffer_too_small (Seed.from_parts 0 1) ⟨16, fun _ => 0⟩ 1 1 none
    .F64LE rfl rfl (by norm_num [PRACTICAL_MAX_BUFFER])

/-- Unfolding `iterState`: `n` wrapping additions of gamma amount to adding
`n * gamma` modulo `2 ^ 64`, provided the starting state is in range. -/
theorem iterState_eq (gamma : Nat) : ∀ (n state : Nat), state < 2 ^ 64 →
    iterState gamma state n = (state + n * gamma) % 2 ^ 64 := by
  intro n
  induction n with
  | zero =>
    intro st hst
    simp only [iterState, Nat.zero_mul, Nat.add_zero]
    exact (Nat.mod_eq_of_lt hst).symm
  | succ n ih =>
    intro st hst
    rw [iterState, ih _ (Nat.mod_lt _ (by norm_num)), Nat.mod_add_mod]
    congr 1
    ring

/-- `advanceN` only moves the state, by `iterState`. -/
theorem advanceN_eq : ∀ (n : Nat) (s : Seed),
    advanceN s n = ⟨iterState s.gamma s.state n, s.gamma⟩ := by
  intro n
  induction n with
  | zero =>
    intro s
    rfl
  | succ n ih =>
    intro s
    show advanceN s.next_u64.seed n = _
    rw [ih]
    rfl

/-- Byte stores do not change the buffer length. -/
theorem Buffer.writeBytes_len : ∀ (vs : List Nat) (b : Buffer) (off : Nat),
    (b.writeBytes off vs).len = b.len := by
  intro vs
  induction vs with
  | nil =>
    intro b off
    rfl
  | cons v vs ih =>
    intro b off
    exact ih _ _

/-- A single store leaves every other index unchanged. -/
theorem Buffer.setByte_data_ne (b : Buffer) (i v j : Nat) (h : j ≠ i) :
    (b.setByte i v).data j = b.data j := by
  simp [Buffer.setByte, h]

/-- A block store at `off` leaves every index at or beyond its end
unchanged. -/
theorem Buffer.writeBytes_data_ge : ∀ (vs : List Nat) (b : Buffer) (off j : Nat),
    off + vs.length ≤ j → (b.writeBytes off vs).data j = b.data j := by
  intro vs
  induction vs with
  | nil =>
    intro b off j h
    rfl
  | cons v vs ih =>
    intro b off j h
    simp only [List.length_cons] at h
    show ((b.setByte off v).writeBytes (off + 1) vs).data j = b.data j
    rw [ih _ _ _ (by omega)]
    exact Buffer.setByte_data_ne _ _ _ _ (by omega)

/-- The final state of the `U32LE` loop is `iterState` of its fuel. -/
theorem fillU32Loop_state (gamma bd : Nat) : ∀ (n : Nat) (buf : Buffer)
    (state i : Nat) (b : Buffer) (st : Nat),
    fillU32Loop gamma bd buf state i n = some (b, st) →
    st = iterState gamma state n := by
  intro n
  induction n with
  | zero =>
    intro buf state i b st h
    simp [fillU32Loop] at h
    exact h.2.symm
  | succ n ih =>
    intro buf state i b st h
    rw [fillU32Loop] at h
    split at h
    · exact ih _ _ _ _ _ h
    · simp at h

/-- The final state of the `F64LE` loop is `iterState` of its fuel. -/
theorem fillF64Loop_state (gamma : Nat) : ∀ (n : Nat) (buf : Buffer)
    (state i : Nat) (b : Buffer) (st : Nat),
    fillF64Loop gamma buf state i n = some (b, st) →
    st = iterState gamma state n := by
  intro n
  induction n with
  | zero =>
    intro buf state i b st h
    simp [fillF64Loop] at h
    exact h.2.symm
  | succ n ih =>
    intro buf state i b st h
    rw [fillF64Loop] at h
    split at h
    · exact ih _ _ _ _ _ h
    · simp at h

/-- The final state of the `BoolU8` loop is `iterState` of its fuel. -/
theorem fillBoolLoop_state (gamma : Nat) : ∀ (n : Nat) (buf : Buffer)
    (state i : Nat) (b : Buffer) (st : Nat),
    fillBoolLoop gamma buf state i n = some (b, st) →
    st = iterState gamma state n := by
  intro n
  induction n with
  | zero =>
    intro buf state i b st h
    simp [fillBoolLoop] at h
    exact h.2.symm
  | succ n ih =>
    intro buf state i b st h
    rw [fillBoolLoop] at h
    split at h
    · exact ih _ _ _ _ _ h
    · simp at h

/-- The final state of every data loop is `iterState` of the count. -/
theorem fill_data_state (fmt : DataFormat) (gamma : Nat) (bd : Option Nat)
    (buf : Buffer) (state count : Nat) (b : Buffer) (st : Nat)
    (h : fill_data fmt gamma bd buf state count = some (b, st)) :
    st = iterState gamma state count := by
  cases fmt with
  | U32LE => exact fillU32Loop_state _ _ _ _ _ _ _ _ h
  | F64LE => exact fillF64Loop_state _ _ _ _ _ _ _ h
  | BoolU8 => exact fillBoolLoop_state _ _ _ _ _ _ _ h

/-- The `U32LE` loop writes only below `9 + (i + n) * 4`. -/
theorem fillU32Loop_frame (gamma bd : Nat) : ∀ (n : Nat) (buf : Buffer)
    (state i : Nat) (b : Buffer) (st : Nat),
    fillU32Loop gamma bd buf state i n = some (b, st) →
    ∀ j, 9 + (i + n) * 4 ≤ j → b.data j = buf.data j := by
  intro n
  induction n with
  | zero =>
    intro buf state i b st h j hj
    simp [fillU32Loop] at h
    rw [← h.1]
  | succ n ih =>
    intro buf state i b st h j hj
    rw [fillU32Loop] at h
    split at h
    · rw [ih _ _ _ _ _ h j (by omega), Buffer.writeBytes_data_ge]
      simp only [u32LeBytes, List.length_cons, List.length_nil]
      omega
    · simp at h

/-- The `F64LE` loop writes only below `9 + (i + n) * 8`. -/
theorem fillF64Loop_frame (gamma : Nat) : ∀ (n : Nat) (buf : Buffer)
    (state i : Nat) (b : Buffer) (st : Nat),
    fillF64Loop gamma buf state i n = some (b, st) →
    ∀ j, 9 + (i + n) * 8 ≤ j → b.data j = buf.data j := by
  intro n
  induction n with
  | zero =>
    intro buf state i b st h j hj
    simp [fillF64Loop] at h
    rw [← h.1]
  | succ n ih =>
    intro buf state i b st h j hj
    rw [fillF64Loop] at h
    split at h
    · rw [ih _ _ _ _ _ h j (by omega), Buffer.writeBytes_data_ge]
      simp only [f64LeBytes, u64LeBytes, List.length_cons, List.length_nil]
      omega
    · simp at h

/-- The `BoolU8` loop writes only below `9 + (i + n)`. -/
theorem fillBoolLoop_frame (gamma : Nat) : ∀ (n : Nat) (buf : Buffer)
    (state i : Nat) (b : Buffer) (st : Nat),
    fillBoolLoop gamma buf state i n = some (b, st) →
    ∀ j, 9 + (i + n) ≤ j → b.data j = buf.data j := by
  intro n
  induction n with
  | zero =>
    intro buf state i b st h j hj
    simp [fillBoolLoop] at h
    rw [← h.1]
  | succ n ih =>
    intro buf state i b st h j hj
    rw [fillBoolLoop] at h
    split at h
    · rw [ih _ _ _ _ _ h j (by omega)]
      exact Buffer.setByte_data_ne _ _ _ _ (by omega)
    · simp at h

/-- Every data loop writes only below `9 + count * bytes_per_element`. -/
theorem fill_data_frame (fmt : DataFormat) (gamma : Nat) (bd : Option Nat)
    (buf : Buffer) (state count : Nat) (b : Buffer) (st : Nat)
    (h : fill_data fmt gamma bd buf state count = some (b, st)) :
    ∀ j, 9 + count * fmt.bytes_per_element ≤ j → b.data j = buf.data j := by
  intro j hj
  cases fmt with
  | U32LE =>
    simp only [DataFormat.bytes_per_element] at hj
    exact fillU32Loop_frame _ _ _ _ _ 0 _ _ h j (by omega)
  | F64LE =>
    simp only [DataFormat.bytes_per_element] at hj
    exact fillF64Loop_frame _ _ _ _ 0 _ _ h j (by omega)
  | BoolU8 =>
    simp only [DataFormat.bytes_per_element] at hj
    exact fillBoolLoop_frame _ _ _ _ 0 _ _ h j (by omega)

/-- A successful `fill_buffer` call decomposes into a decoded format, a data
loop that returned its buffer and final state, and the `ok` result built
from them. -/
theorem fill_buffer_ok_elim (s : Seed) (buf : Buffer) (f count : Nat)
    (bd : Option Nat) (hok : (s.fill_buffer buf f count bd).isOk = true) :
    ∃ (fmt : DataFormat) (b : Buffer) (st : Nat),
      DataFormat.from_u8 f = .ok fmt ∧
      fill_data fmt s.gamma bd
        ((buf.setByte 0 f).writeBytes 1 (u64LeBytes count)) s.state count
        = some (b, st) ∧
      s.fill_buffer buf f count bd = FillResult.ok b ⟨st, s.gamma⟩ := by
  by_cases h1 : buf.len > PRACTICAL_MAX_BUFFER
  · exfalso
    unfold Seed.fill_buffer at hok
    rw [if_pos h1] at hok
    simp [FillResult.isOk] at hok
  · cases hf : DataFormat.from_u8 f with
    | error e =>
      exfalso
      unfold Seed.fill_buffer at hok
      rw [if_neg h1, hf] at hok
      simp [FillResult.isOk] at hok
    | ok fmt =>
      have hstep : s.fill_buffer buf f count bd
          = fill_buffer_validated s buf f count bd fmt := by
        unfold Seed.fill_buffer
        rw [if_neg h1, hf]
      rw [hstep] at hok
      unfold fill_buffer_validated at hok
      by_cases h2 : buf.len < required_size fmt count
      · rw [if_pos h2] at hok
        simp [FillResult.isOk] at hok
      · rw [if_neg h2] at hok
        by_cases h3 : buf.len < 1
        · rw [if_pos h3] at hok
          simp [FillResult.isOk] at hok
        · rw [if_neg h3] at hok
          by_cases h4 : buf.len < 9
          · rw [if_pos h4] at hok
            simp [FillResult.isOk] at hok
          · rw [if_neg h4] at hok
            cases hd : fill_data fmt s.gamma bd
                ((buf.setByte 0 f).writeBytes 1 (u64LeBytes count))
                s.state count with
            | none =>
              exfalso
              rw [hd] at hok
              simp [FillResult.isOk] at hok
            | some p =>
              obtain ⟨b, st⟩ := p
              refine ⟨fmt, b, st, rfl, hd, ?_⟩
              rw [hstep]
              unfold fill_buffer_validated
              rw [if_neg h2, if_neg h3, if_neg h4, hd]

/-- Claim C9: a successful `fill_buffer` call with element count `n` returns
the seed with the same gamma and state `state + n * gamma` modulo `2 ^ 64`,
which is exactly the seed obtained by performing `n` `next_u64` advances (so
with `n = 0` it is the input seed). -/
theorem fill_buffer_final_seed (s : Seed) (buf : Buffer) (f count : Nat)
    (bd : Option Nat) (hstate : s.state < 2 ^ 64)
    (hok : (s.fill_buffer buf f count bd).isOk = true) :
    (s.fill_buffer buf f count bd).seedOf
        = some ⟨(s.state + count * s.gamma) % 2 ^ 64, s.gamma⟩ ∧
    Seed.mk ((s.state + count * s.gamma) % 2 ^ 64) s.gamma = advanceN s count := by
  obtain ⟨fmt, b, st, hf, hd, heq⟩ := fill_buffer_ok_elim s buf f count bd hok
  have hst : st = iterState s.gamma s.state count :=
    fill_data_state _ _ _ _ _ _ _ _ hd
  have hiter : iterState s.gamma s.state count
      = (s.state + count * s.gamma) % 2 ^ 64 :=
    iterState_eq s.gamma count s.state hstate
  constructor
  · rw [heq]
    show some (⟨st, s.gamma⟩ : Seed) = _
    rw [hst, hiter]
  · rw [advanceN_eq, hiter]

/-- Witness for claim C9: boolean format, count 2, starting from the seed
`(1, 3)`; the final seed is `(7, 3)`, i.e. two advances. -/
theorem fill_buffer_final_seed_witness :
    ((Seed.from_parts 1 3).fill_buffer ⟨12, fun _ => 7⟩ 2 2 none).seedOf
        = some ⟨(1 + 2 * 3) % 2 ^ 64, 3⟩ ∧
    Seed.mk ((1 + 2 * 3) % 2 ^ 64) 3 = advanceN (Seed.from_parts 1 3) 2 :=
  fill_buffer_final_seed (Seed.from_parts 1 3) ⟨12, fun _ => 7⟩ 2 2 none
    (by decide) rfl

/-- Claim C10: a successful `fill_buffer` call with element count `n` and a
format of element size `s` leaves every buffer byte at index at or beyond
`9 + n * s` exactly as it was before the call. -/
theorem fill_buffer_frame (s : Seed) (buf : Buffer) (f count : Nat)
    (bd : Option Nat) (fmt : DataFormat)
    (hf : DataFormat.from_u8 f = .ok fmt)
    (hok : (s.fill_buffer buf f count bd).isOk = true)
    (j : Nat) (hj : 9 + count * fmt.bytes_per_element ≤ j) :
    (s.fill_buffer buf f count bd).dataAt j = some (buf.data j) := by
  obtain ⟨fmt', b, st, hf', hd, heq⟩ := fill_buffer_ok_elim s buf f count bd hok
  have hfmt : fmt = fmt' := by
    have h := hf.symm.trans hf'
    injection h
  subst hfmt
  rw [heq]
  show some (b.data j) = some (buf.data j)
  congr 1
  have h9 : 9 ≤ j := le_trans (Nat.le_add_right 9 _) hj
  rw [fill_data_frame _ _ _ _ _ _ _ _ hd j hj, Buffer.writeBytes_data_ge]
  · exact Buffer.setByte_data_ne _ _ _ _ (by omega)
  · simp only [u64LeBytes, List.length_cons, List.length_nil]
    omega

/-- Witness for claim C10: boolean format, count 2, a 12-byte buffer filled
with the byte 7; byte 11 lies beyond `9 + 2 * 1` and still reads 7. -/
theorem fill_buffer_frame_witness :
    ((Seed.from_parts 1 3).fill_buffer ⟨12, fun _ => 7⟩ 2 2 none).dataAt 11
      = some 7 :=
  fill_buffer_frame (Seed.from_parts 1 3) ⟨12, fun _ => 7⟩ 2 2 none
    .BoolU8 rfl rfl 11 (by decide)
